import Mathlib

/-!
# Verification of the valuation core of `streamlit_app.py`

Shallow embedding of the data-merge and projection engine of the
Evolucion-EPS-PER repository (file `streamlit_app.py`):

* `obtener_datos_sec` — the Fiscal Record Normalizer (lines 26-46);
* `obtener_datos_yfinance` — the Price Series Adapter (lines 48-60);
* `calcular_per_y_fusionar` — the Temporal Join Engine (lines 62-70);
* `calcular_crecimiento` — trailing CAGR (lines 134-139);
* `per_promedio` — trailing mean ratio (lines 143-144);
* `proyeccion_df` — the Scenario Projector (lines 185-194).

Modelling conventions: dates are integers (day numbers); a date parsed with
`errors="coerce"` that comes out as NaT is `none`; pandas NaN cells are
`none`; machine floats are idealized as exact rationals (reals where a real
root is taken).  Pandas `sort_values` over several key columns is a stable
sort (it uses a lexicographic stable sorting routine, `na_position="last"`
by default), embedded here with `List.insertionSort`, which is stable.
-/

/-- One raw SEC disclosure row of the `EarningsPerShareBasic` dataframe
(`eps_data` in `obtener_datos_sec`).  `fecha` is the renamed `end` column
(period end), `filed` the filing date; both are parsed with
`errors="coerce"`, hence possibly missing.  `val` is the renamed
`EPS Reportado` value. -/
structure FilingRecord where
  fecha : Option ℤ
  filed : Option ℤ
  fy : ℤ
  fp : String
  form : String
  val : ℚ
deriving DecidableEq, Repr

/-- The mask of line 38: `form` is `10-K` or `10-K/A` and `fp == "FY"`. -/
def qualifies (r : FilingRecord) : Prop :=
  (r.form = "10-K" ∨ r.form = "10-K/A") ∧ r.fp = "FY"

instance : DecidablePred qualifies := fun r => by
  unfold qualifies; infer_instance

/-- Comparison of possibly-missing dates as pandas sorts them with
`na_position="last"` under a descending sort: a missing date (NaT) compares
below every real date. -/
def fechaLe (a b : Option ℤ) : Prop :=
  match a, b with
  | none, _ => True
  | some _, none => False
  | some x, some y => x ≤ y

instance : DecidableRel fechaLe := fun a b =>
  match a, b with
  | none, _ => isTrue trivial
  | some _, none => isFalse (fun h => h)
  | some x, some y => inferInstanceAs (Decidable (x ≤ y))

/-- Row order realized by
`sort_values(by=["fy", "filed"], ascending=[False, False])`:
`a` may precede `b` iff the key (`fy` desc, `filed` desc) of `a` is
lexicographically at least that of `b`. -/
def sortDescRel (a b : FilingRecord) : Prop :=
  b.fy < a.fy ∨ (b.fy = a.fy ∧ fechaLe b.filed a.filed)

instance : DecidableRel sortDescRel := fun a b => by
  unfold sortDescRel; infer_instance

/-- Row order realized by `sort_values(by="fy", ascending=True)`. -/
def sortFyAsc (a b : FilingRecord) : Prop :=
  a.fy ≤ b.fy

instance : DecidableRel sortFyAsc := fun a b => by
  unfold sortFyAsc; infer_instance

/-- `drop_duplicates(subset="fy", keep="first")`: keep the first row of each
`fy` value, preserving row order. -/
def dropDupFy : List FilingRecord → List FilingRecord
  | [] => []
  | x :: xs => x :: dropDupFy (xs.filter (fun y => y.fy ≠ x.fy))
termination_by l => l.length
decreasing_by
  exact Nat.lt_succ_of_le (List.length_filter_le _ _)

/-- The Fiscal Record Normalizer, `obtener_datos_sec` lines 38-46: filter to
annual (10-K / 10-K/A) full-year (`FY`) rows; if none remain, an empty
dataframe; otherwise sort by (`fy`, `filed`) descending, keep the first row
per `fy`, and sort ascending by `fy`.  (The HTTP fetch, unit-bucket check
and column renames around it are I/O and carry no row logic.) -/
def obtener_datos_sec (eps_data : List FilingRecord) : List FilingRecord :=
  let eps_anual_data := eps_data.filter (fun r => decide (qualifies r))
  if eps_anual_data = [] then []
  else
    List.insertionSort sortFyAsc
      (dropDupFy (List.insertionSort sortDescRel eps_anual_data))

/-! ### Price Series Adapter (`obtener_datos_yfinance`, lines 48-60) -/

/-- A raw yfinance timestamp: a local calendar day plus timezone
information (`dt.tz_localize(None)` keeps the day and erases `tz`). -/
structure RawDate where
  day : ℤ
  tz : Option ℤ
deriving DecidableEq, Repr

/-- One raw row of `stock.history(period="max")["Close"]`: the index
timestamp and the closing price (a NaN close is `none`). -/
structure RawPriceRow where
  fecha : RawDate
  close : Option ℚ
deriving DecidableEq, Repr

/-- The Price Series Adapter, `obtener_datos_yfinance` lines 51-60: when
the fetched history is empty it returns the sentinel `None` (there is no
price dataframe at all); otherwise it renames the columns to
(`Fecha`, `Precio`) and strips the timezone with `tz_localize(None)`.
No row is dropped and no sorting is applied: rows keep the source order
and a missing close survives as a missing price.  (The `info` snapshot
returned alongside — current price and trailing EPS — feeds only the TTM
headline and is outside this model.) -/
def obtener_datos_yfinance (hist : List RawPriceRow) :
    Option (List (RawDate × Option ℚ)) :=
  if hist = [] then none
  else some (hist.map (fun r => (⟨r.fecha.day, none⟩, r.close)))

/-! ### Temporal Join Engine (`calcular_per_y_fusionar`, lines 62-70) -/

/-- One row of the normalized annual EPS dataframe as consumed by the join:
fiscal year, period-end date (`Fecha`), and the per-share value
(`EPS Año Fiscal`). -/
structure AnnualRow where
  fy : ℤ
  fecha : ℤ
  eps : ℚ
deriving DecidableEq, Repr

/-- One row of `eps_price_df`: the annual record joined with its as-of
price (`Precio`) and the derived ratio (`PER`); either may be absent. -/
structure ValuationRow where
  fy : ℤ
  fecha : ℤ
  eps : ℚ
  precio : Option ℚ
  per : Option ℚ
deriving DecidableEq, Repr

/-- Row order of `eps_df.sort_values("Fecha")`. -/
def annualFechaLe (a b : AnnualRow) : Prop :=
  a.fecha ≤ b.fecha

instance : DecidableRel annualFechaLe := fun a b => by
  unfold annualFechaLe; infer_instance

/-- Row order of `prices_df.sort_values("Fecha")`; a price row is a
(date, close) pair. -/
def priceLe (a b : ℤ × ℚ) : Prop :=
  a.1 ≤ b.1

instance : DecidableRel priceLe := fun a b => by
  unfold priceLe; infer_instance

/-- The backward as-of match of `pd.merge_asof(..., direction="backward")`
on an ascending price table: the last price row whose date is at most `d`,
absent when every price is dated after `d`. -/
def asofPrecio (prices : List (ℤ × ℚ)) (d : ℤ) : Option ℚ :=
  ((prices.filter (fun p => decide (p.1 ≤ d))).getLast?).map Prod.snd

/-- The Temporal Join Engine, `calcular_per_y_fusionar` lines 62-70: sort
both tables by `Fecha`, backward as-of merge, then
`PER = np.where(EPS > 0, Precio / EPS, None)`.  A row without a matched
price keeps `PER` absent (in pandas `NaN / eps` is NaN).  The final
`replace([inf, -inf], None)` of line 69 is a no-op in exact rational
arithmetic: with a matched finite price and `eps > 0` the quotient is a
finite rational, so no infinity can arise. -/
def calcular_per_y_fusionar (eps_df : List AnnualRow) (prices_df : List (ℤ × ℚ)) :
    List ValuationRow :=
  let eps_df_sorted := List.insertionSort annualFechaLe eps_df
  let prices_df_sorted := List.insertionSort priceLe prices_df
  eps_df_sorted.map (fun e =>
    let precio := asofPrecio prices_df_sorted e.fecha
    let per : Option ℚ :=
      if e.eps > 0 then precio.map (fun p => p / e.eps) else none
    ⟨e.fy, e.fecha, e.eps, precio, per⟩)

/-! ### Trend Analytics (lines 134-144) -/

/-- `Series.dropna()`: keep the non-null entries in order. -/
def dropna (s : List (Option ℚ)) : List ℚ :=
  s.filterMap id

/-- Trailing CAGR, `calcular_crecimiento` lines 134-139: after dropping
nulls, `None` when fewer than `anios` points remain; the starting value is
`data.iloc[-anios]` (index `length - anios`); `None` when it is
non-positive; otherwise `((last / start) ** (1 / anios) - 1) * 100`.
The function is used with `anios = 10` and `anios = 5`; at `anios = 0` the
Python code would raise `ZeroDivisionError` on `1 / anios`, so that point
is outside the embedding's faithful domain and the theorems assume
`1 ≤ anios`.  The real root forces a value in `ℝ`. -/
noncomputable def calcular_crecimiento (data : List (Option ℚ)) (anios : ℕ) :
    Option ℝ :=
  let d := dropna data
  if d.length < anios then none
  else
    let valor_inicial := d.getD (d.length - anios) 0
    if valor_inicial ≤ 0 then none
    else some
      (((((d.getD (d.length - 1) 0 : ℚ) : ℝ) / ((valor_inicial : ℚ) : ℝ))
          ^ ((1 : ℝ) / (anios : ℝ)) - 1) * 100)

/-- Trailing mean ratio, lines 143-144:
`eps_price_df["PER"].dropna().tail(w).mean()`.  `tail(w)` keeps the last
`w` rows (all of them when fewer exist) and the mean of an empty selection
is NaN, checked downstream with `pd.notna` — modelled as `none`. -/
def per_promedio (per : List (Option ℚ)) (w : ℕ) : Option ℚ :=
  let v := per.filterMap id
  let t := v.drop (v.length - w)
  if t = [] then none else some (t.sum / (t.length : ℚ))

/-! ### Scenario Projector (`proyeccion_df`, lines 185-194) -/

/-- One row of `proyeccion_df`: years ahead (1..5), the projected EPS and
the three scenario prices.  The float constants 0.8 and 1.2 are the exact
rationals 8/10 and 12/10 in this idealization. -/
structure ProyeccionRow where
  anio : ℕ
  projected_eps : ℚ
  pesimista : ℚ
  base : ℚ
  optimista : ℚ
deriving DecidableEq, Repr

/-- The Scenario Projector, lines 185-194: for `k` in `np.arange(1, 6)`,
`projected_eps = current_eps * (1 + cagr_eps / 100) ** k` and the three
scenario prices `projected_eps * (per_base * 0.8)`,
`projected_eps * per_base`, `projected_eps * (per_base * 1.2)`. -/
def proyeccion_df (current_eps per_base cagr_eps : ℚ) : List ProyeccionRow :=
  (List.range 5).map (fun i =>
    let k := i + 1
    let projected_eps := current_eps * (1 + cagr_eps / 100) ^ k
    ⟨k, projected_eps, projected_eps * (per_base * (8 / 10)),
      projected_eps * per_base, projected_eps * (per_base * (12 / 10))⟩)

/-! ### Concrete records used by counterexamples and witnesses -/

/-- A qualifying FY2022 filing: period end day 10, filed day 100, EPS 1. -/
def cexA : FilingRecord :=
  ⟨some 10, some 100, 2022, "FY", "10-K", 1⟩

/-- A qualifying FY2022 filing with the same filed date as `cexA` but a
later period end (day 20) and EPS 2. -/
def cexB : FilingRecord :=
  ⟨some 20, some 100, 2022, "FY", "10-K", 2⟩

/-- Raw price history with a missing close on the later-dated first row:
day 5 with no close, then day 4 closing at 3. -/
def cexHist : List RawPriceRow :=
  [⟨⟨5, some 120⟩, none⟩, ⟨⟨4, none⟩, some 3⟩]

/-- What the adapter returns on `cexHist`. -/
def cexHistOut : List (RawDate × Option ℚ) :=
  [(⟨5, none⟩, none), (⟨4, none⟩, some 3)]

theorem fechaLe_refl (a : Option ℤ) : fechaLe a a := by
  cases a <;> simp [fechaLe]

theorem fechaLe_total (a b : Option ℤ) : fechaLe a b ∨ fechaLe b a := by
  cases a <;> cases b <;> simp [fechaLe] <;> exact le_total _ _

theorem fechaLe_trans {a b c : Option ℤ} (h1 : fechaLe a b) (h2 : fechaLe b c) :
    fechaLe a c := by
  cases a <;> cases b <;> cases c <;> simp_all [fechaLe] <;> exact le_trans h1 h2

instance : IsTotal FilingRecord sortDescRel := by
  constructor
  intro a b
  rcases lt_trichotomy a.fy b.fy with h | h | h
  · exact Or.inr (Or.inl h)
  · rcases fechaLe_total a.filed b.filed with hf | hf
    · exact Or.inr (Or.inr ⟨h, hf⟩)
    · exact Or.inl (Or.inr ⟨h.symm, hf⟩)
  · exact Or.inl (Or.inl h)

instance : IsTrans FilingRecord sortDescRel := by
  constructor
  intro a b c hab hbc
  rcases hab with h1 | ⟨h1, hf1⟩ <;> rcases hbc with h2 | ⟨h2, hf2⟩
  · exact Or.inl (lt_trans h2 h1)
  · exact Or.inl (h2 ▸ h1)
  · exact Or.inl (h1 ▸ h2)
  · exact Or.inr ⟨h2.trans h1, fechaLe_trans hf2 hf1⟩

instance : IsTotal FilingRecord sortFyAsc := by
  constructor; intro a b; exact le_total a.fy b.fy

instance : IsTrans FilingRecord sortFyAsc := by
  constructor; intro a b c h1 h2; exact le_trans h1 h2

theorem mem_of_mem_dropDupFy :
    ∀ (l : List FilingRecord) (x : FilingRecord), x ∈ dropDupFy l → x ∈ l := by
  intro l
  induction l using dropDupFy.induct with
  | case1 => intro x hx; simpa [dropDupFy] using hx
  | case2 a xs ih =>
    intro x hx
    rw [dropDupFy] at hx
    rcases List.mem_cons.mp hx with h | h
    · exact h ▸ List.mem_cons_self _ _
    · exact List.mem_cons_of_mem _ (List.mem_of_mem_filter (ih x h))

theorem dropDupFy_pairwise_ne :
    ∀ l : List FilingRecord, (dropDupFy l).Pairwise (fun a b => a.fy ≠ b.fy) := by
  intro l
  induction l using dropDupFy.induct with
  | case1 => simp [dropDupFy]
  | case2 a xs ih =>
    rw [dropDupFy]
    refine List.pairwise_cons.mpr ⟨?_, ih⟩
    intro b hb
    have hbf := mem_of_mem_dropDupFy _ _ hb
    have := (List.mem_filter.mp hbf).2
    simp only [decide_eq_true_eq] at this
    exact fun hab => this (hab ▸ rfl)

theorem dropDupFy_max :
    ∀ l : List FilingRecord, l.Pairwise sortDescRel →
      ∀ x ∈ dropDupFy l, ∀ z ∈ l, z.fy = x.fy → fechaLe z.filed x.filed := by
  intro l
  induction l using dropDupFy.induct with
  | case1 => intro _ x hx; simp [dropDupFy] at hx
  | case2 a xs ih =>
    intro hp x hx z hz hzx
    rw [dropDupFy] at hx
    have hpa : ∀ y ∈ xs, sortDescRel a y := (List.pairwise_cons.mp hp).1
    have hpxs : xs.Pairwise sortDescRel := (List.pairwise_cons.mp hp).2
    rcases List.mem_cons.mp hx with hxa | hxd
    · subst hxa
      rcases List.mem_cons.mp hz with hza | hzxs
      · exact hza ▸ fechaLe_refl _
      · rcases hpa z hzxs with h | ⟨_, hf⟩
        · exact absurd (hzx ▸ h) (lt_irrefl _)
        · exact hf
    · have hxfy : x.fy ≠ a.fy := by
        have := (List.mem_filter.mp (mem_of_mem_dropDupFy _ _ hxd)).2
        simpa using this
      rcases List.mem_cons.mp hz with hza | hzxs
      · exact absurd (hza ▸ hzx) (fun h => hxfy h.symm)
      · have hzf : z ∈ xs.filter (fun y => y.fy ≠ a.fy) := by
          refine List.mem_filter.mpr ⟨hzxs, ?_⟩
          simp [hzx, hxfy]
        exact ih (hpxs.filter _) x hxd z hzf hzx

theorem dropDupFy_covers :
    ∀ l : List FilingRecord, ∀ z ∈ l, ∃ x ∈ dropDupFy l, x.fy = z.fy := by
  intro l
  induction l using dropDupFy.induct with
  | case1 => intro z hz; simp at hz
  | case2 a xs ih =>
    intro z hz
    rw [dropDupFy]
    rcases List.mem_cons.mp hz with hza | hzxs
    · exact ⟨a, List.mem_cons_self _ _, (hza ▸ rfl : a.fy = z.fy)⟩
    · by_cases hfy : z.fy = a.fy
      · exact ⟨a, List.mem_cons_self _ _, hfy.symm⟩
      · have hzf : z ∈ xs.filter (fun y => y.fy ≠ a.fy) := by
          refine List.mem_filter.mpr ⟨hzxs, ?_⟩
          simp [hfy]
        obtain ⟨x, hx, hxz⟩ := ih z hzf
        exact ⟨x, List.mem_cons_of_mem _ hx, hxz⟩

/-- The branchless form of the Normalizer: the empty-check branch of
line 40 coincides with the sort-dedup-sort pipeline on the empty list. -/
theorem obtener_datos_sec_eq (eps_data : List FilingRecord) :
    obtener_datos_sec eps_data =
      List.insertionSort sortFyAsc
        (dropDupFy (List.insertionSort sortDescRel
          (eps_data.filter (fun r => decide (qualifies r))))) := by
  unfold obtener_datos_sec
  by_cases h : eps_data.filter (fun r => decide (qualifies r)) = []
  · simp [h, dropDupFy]
  · simp [h]

theorem mem_obtener_iff (eps_data : List FilingRecord) (x : FilingRecord) :
    x ∈ obtener_datos_sec eps_data ↔
      x ∈ dropDupFy (List.insertionSort sortDescRel
        (eps_data.filter (fun r => decide (qualifies r)))) := by
  rw [obtener_datos_sec_eq]
  exact (List.perm_insertionSort sortFyAsc _).mem_iff

/-- Shorthand for the mask-filtered table of line 39. -/
theorem mem_filter_qualifies {eps_data : List FilingRecord} {x : FilingRecord} :
    x ∈ eps_data.filter (fun r => decide (qualifies r)) ↔
      x ∈ eps_data ∧ qualifies x := by
  rw [List.mem_filter]
  simp

/-- C8: the Fiscal Record Normalizer's output is strictly ascending by
`fiscal_year` (hence without duplicate fiscal years), and when no input
record qualifies the result is the empty list — a value, not an error. -/
theorem C8_normalizer_sorted_and_empty (eps_data : List FilingRecord) :
    (obtener_datos_sec eps_data).Pairwise (fun a b => a.fy < b.fy) ∧
    ((∀ r ∈ eps_data, ¬ qualifies r) → obtener_datos_sec eps_data = []) := by
  constructor
  · have hsor : (obtener_datos_sec eps_data).Pairwise sortFyAsc := by
      rw [obtener_datos_sec_eq]
      exact List.sorted_insertionSort sortFyAsc _
    have hne : (obtener_datos_sec eps_data).Pairwise (fun a b => a.fy ≠ b.fy) := by
      rw [obtener_datos_sec_eq]
      refine (List.Perm.pairwise_iff (fun h => h.symm)
        (List.perm_insertionSort sortFyAsc _)).mpr ?_
      exact dropDupFy_pairwise_ne _
    exact (hsor.and hne).imp (fun h => lt_of_le_of_ne h.1 h.2)
  · intro h
    have hf : eps_data.filter (fun r => decide (qualifies r)) = [] := by
      rw [List.filter_eq_nil_iff]
      intro a ha
      simpa using h a ha
    unfold obtener_datos_sec
    simp [hf]

/-- Witness for C8 on a one-row input whose only record is quarterly
(form 10-Q), hence non-qualifying. -/
theorem C8_normalizer_sorted_and_empty_witness :
    (obtener_datos_sec [⟨some 1, some 2, 2020, "Q1", "10-Q", 3⟩]).Pairwise
        (fun a b => a.fy < b.fy) ∧
      obtener_datos_sec [⟨some 1, some 2, 2020, "Q1", "10-Q", 3⟩] = [] :=
  ⟨(C8_normalizer_sorted_and_empty _).1,
    (C8_normalizer_sorted_and_empty _).2 (by decide)⟩

/-- C1 (amended): the Normalizer's output has at most one record per
fiscal year; every output record is a qualifying input record whose filed
date is maximal among the qualifying records of its fiscal-year group; and
every fiscal year with a qualifying record is represented.  Which record
wins a tie on the maximal filed date is NOT determined by `period_end`
(see the counterexample): the stable descending sort of line 42 keys on
(`fy`, `filed`) only, so tied records stay in input order and the first
one is kept. -/
theorem C1_normalizer_latest_filed_wins (eps_data : List FilingRecord) :
    (obtener_datos_sec eps_data).Pairwise (fun a b => a.fy ≠ b.fy) ∧
    (∀ x ∈ obtener_datos_sec eps_data, x ∈ eps_data ∧ qualifies x ∧
      ∀ z ∈ eps_data, qualifies z → z.fy = x.fy → fechaLe z.filed x.filed) ∧
    (∀ z ∈ eps_data, qualifies z →
      ∃ x ∈ obtener_datos_sec eps_data, x.fy = z.fy) := by
  refine ⟨?_, ?_, ?_⟩
  · rw [obtener_datos_sec_eq]
    refine (List.Perm.pairwise_iff (fun h => h.symm)
      (List.perm_insertionSort sortFyAsc _)).mpr ?_
    exact dropDupFy_pairwise_ne _
  · intro x hx
    have hxD := (mem_obtener_iff eps_data x).mp hx
    have hxS := mem_of_mem_dropDupFy _ _ hxD
    have hxF := (List.perm_insertionSort sortDescRel _).subset hxS
    obtain ⟨hxe, hxq⟩ := mem_filter_qualifies.mp hxF
    refine ⟨hxe, hxq, ?_⟩
    intro z hz hq hzx
    have hzS : z ∈ List.insertionSort sortDescRel
        (eps_data.filter (fun r => decide (qualifies r))) :=
      (List.perm_insertionSort sortDescRel _).mem_iff.mpr
        (mem_filter_qualifies.mpr ⟨hz, hq⟩)
    exact dropDupFy_max _ (List.sorted_insertionSort sortDescRel _) x hxD z hzS hzx
  · intro z hz hq
    have hzS : z ∈ List.insertionSort sortDescRel
        (eps_data.filter (fun r => decide (qualifies r))) :=
      (List.perm_insertionSort sortDescRel _).mem_iff.mpr
        (mem_filter_qualifies.mpr ⟨hz, hq⟩)
    obtain ⟨x, hx, hfy⟩ := dropDupFy_covers _ z hzS
    exact ⟨x, (mem_obtener_iff _ x).mpr hx, hfy⟩

/-- Witness for C1 (amended) on a one-row qualifying input. -/
theorem C1_normalizer_latest_filed_wins_witness :
    ∃ x ∈ obtener_datos_sec [(⟨some 3, some 4, 2021, "FY", "10-K", 7⟩ : FilingRecord)],
      x.fy = (⟨some 3, some 4, 2021, "FY", "10-K", 7⟩ : FilingRecord).fy :=
  (C1_normalizer_latest_filed_wins _).2.2 _ (by decide) (by decide)

/-- C1 counterexample: `cexA` and `cexB` both qualify for FY2022 and share
the latest filed date; `cexB` has the later `period_end`; the claim says
`cexB` must win, but the Normalizer keeps `cexA`. -/
theorem C1_period_end_tiebreak_refuted :
    qualifies cexA ∧ qualifies cexB ∧ cexA.fy = cexB.fy ∧
      cexA.filed = cexB.filed ∧ cexA.fecha = some 10 ∧ cexB.fecha = some 20 ∧
      ((10 : ℤ) < 20) ∧ cexA ≠ cexB ∧
      obtener_datos_sec [cexA, cexB] = [cexA] := by
  refine ⟨by decide, by decide, by decide, by decide, rfl, rfl, by decide,
    by decide, ?_⟩
  rw [obtener_datos_sec_eq]
  rw [show ([cexA, cexB].filter (fun r => decide (qualifies r))) = [cexA, cexB]
    from by decide]
  rw [show List.insertionSort sortDescRel [cexA, cexB] = [cexA, cexB] from by decide]
  rw [show dropDupFy [cexA, cexB] = [cexA] from by simp [dropDupFy, cexA, cexB]]
  decide

theorem reverse_getD (l : List ℚ) (i : ℕ) (h : i < l.length) :
    l.reverse.getD i 0 = l.getD (l.length - 1 - i) 0 := by
  have h1 : i < l.reverse.length := by simpa using h
  have h2 : l.length - 1 - i < l.length := by omega
  rw [List.getD_eq_getElem _ _ h1, List.getD_eq_getElem _ _ h2]
  exact List.getElem_reverse _

/-- C2: trailing CAGR(series, window) is absent iff, after dropping nulls,
fewer than `window` points remain or the starting value — the entry
`window` positions from the end, i.e. index `window - 1` of the reversed
series — is non-positive; otherwise it equals
`((ending / starting) ^ (1 / window) - 1) * 100` with the last entry as
the ending value.  The window is positive: the source calls the function
with 10 and 5 only, and `1 / anios` raises at 0. -/
theorem C2_cagr_formula (data : List (Option ℚ)) (w : ℕ) (hw : 1 ≤ w) :
    (calcular_crecimiento data w = none ↔
      (dropna data).length < w ∨ (dropna data).reverse.getD (w - 1) 0 ≤ 0) ∧
    (w ≤ (dropna data).length → 0 < (dropna data).reverse.getD (w - 1) 0 →
      calcular_crecimiento data w = some
        ((((((dropna data).reverse.getD 0 0 : ℚ) : ℝ) /
            (((dropna data).reverse.getD (w - 1) 0 : ℚ) : ℝ)) ^ ((1 : ℝ) / (w : ℝ))
          - 1) * 100)) := by
  have hdef : calcular_crecimiento data w =
      if (dropna data).length < w then none
      else if (dropna data).getD ((dropna data).length - w) 0 ≤ 0 then none
      else some
        ((((((dropna data).getD ((dropna data).length - 1) 0 : ℚ) : ℝ) /
            (((dropna data).getD ((dropna data).length - w) 0 : ℚ) : ℝ))
              ^ ((1 : ℝ) / (w : ℝ)) - 1) * 100) := rfl
  by_cases hlen : (dropna data).length < w
  · refine ⟨?_, ?_⟩
    · rw [hdef, if_pos hlen]
      exact iff_of_true rfl (Or.inl hlen)
    · intro h1
      omega
  · push_neg at hlen
    have hwlt : w - 1 < (dropna data).length := by omega
    have hrev : (dropna data).reverse.getD (w - 1) 0
        = (dropna data).getD ((dropna data).length - w) 0 := by
      rw [reverse_getD _ _ hwlt]
      congr 1
      omega
    have hlast : (dropna data).reverse.getD 0 0
        = (dropna data).getD ((dropna data).length - 1) 0 := by
      rw [reverse_getD _ _ (show 0 < (dropna data).length by omega)]
      simp
    refine ⟨?_, ?_⟩
    · rw [hdef, if_neg (by omega), hrev]
      by_cases hs : (dropna data).getD ((dropna data).length - w) 0 ≤ 0
      · rw [if_pos hs]
        exact iff_of_true rfl (Or.inr hs)
      · rw [if_neg hs]
        refine iff_of_false (by simp) ?_
        rintro (h1 | h2)
        · omega
        · exact hs h2
    · intro h1 h2
      rw [hrev] at h2
      rw [hdef, if_neg (by omega), if_neg (not_le.mpr h2), hlast, hrev]

/-- Witness for C2 on the two-point series 1, 4 with window 2: CAGR is
`(sqrt 4 - 1) * 100`. -/
theorem C2_cagr_formula_witness :
    calcular_crecimiento [some 1, some 4] 2 = some
      (((((4 : ℚ) : ℝ) / ((1 : ℚ) : ℝ)) ^ ((1 : ℝ) / (2 : ℝ)) - 1) * 100) := by
  have h := (C2_cagr_formula [some 1, some 4] 2 (by decide)).2 (by decide) (by decide)
  have h1 : (dropna [some 1, some 4]).reverse.getD 0 0 = (4 : ℚ) := by decide
  have h2 : (dropna [some 1, some 4]).reverse.getD (2 - 1) 0 = (1 : ℚ) := by decide
  rw [h1, h2] at h
  exact h

theorem filterMap_id_set (data : List (Option ℚ)) (i : ℕ) (a b : ℚ)
    (hi : data[i]? = some (some a)) :
    (data.set i (some b)).filterMap id =
      (data.filterMap id).set ((data.take i).filterMap id).length b := by
  induction data generalizing i with
  | nil => simp at hi
  | cons x xs ih =>
    cases i with
    | zero =>
      simp only [List.getElem?_cons_zero, Option.some_inj] at hi
      subst hi
      simp [List.filterMap_cons]
    | succ n =>
      rw [List.getElem?_cons_succ] at hi
      cases x with
      | none =>
        simpa [List.filterMap_cons, List.take_succ_cons] using ih n hi
      | some q =>
        simp [List.filterMap_cons, List.take_succ_cons, List.set_cons_succ,
          ih n hi]

/-- C10: trailing CAGR reads only the length of the null-free series, its
last entry and its entry `window` from the end: overwriting the non-null
entry at any other position (position `j` of the null-free series, where
`j` counts the non-null entries before index `i`) with another non-null
value leaves the result unchanged. -/
theorem C10_cagr_depends_on_two_points (data : List (Option ℚ)) (w i : ℕ)
    (a b : ℚ) (hw : 1 ≤ w) (hlen : w ≤ (dropna data).length)
    (hi : data[i]? = some (some a))
    (hne1 : ((data.take i).filterMap id).length ≠ (dropna data).length - w)
    (hne2 : ((data.take i).filterMap id).length ≠ (dropna data).length - 1) :
    calcular_crecimiento (data.set i (some b)) w = calcular_crecimiento data w := by
  have hset : dropna (data.set i (some b)) =
      (dropna data).set ((data.take i).filterMap id).length b :=
    filterMap_id_set data i a b hi
  have hg : ∀ k : ℕ, ((data.take i).filterMap id).length ≠ k →
      ((dropna data).set ((data.take i).filterMap id).length b).getD k 0
        = (dropna data).getD k 0 := by
    intro k hk
    rw [List.getD_eq_getElem?_getD, List.getD_eq_getElem?_getD,
      List.getElem?_set_ne hk]
  have hdef : ∀ dat : List (Option ℚ), calcular_crecimiento dat w =
      if (dropna dat).length < w then none
      else if (dropna dat).getD ((dropna dat).length - w) 0 ≤ 0 then none
      else some
        ((((((dropna dat).getD ((dropna dat).length - 1) 0 : ℚ) : ℝ) /
            (((dropna dat).getD ((dropna dat).length - w) 0 : ℚ) : ℝ))
              ^ ((1 : ℝ) / (w : ℝ)) - 1) * 100) := fun _ => rfl
  rw [hdef, hdef, hset, List.length_set, hg _ hne1, hg _ hne2]

/-- Witness for C10: overwriting the first of three points (window 2)
does not move the CAGR. -/
theorem C10_cagr_depends_on_two_points_witness :
    calcular_crecimiento (([some 1, some 2, some 3] : List (Option ℚ)).set 0 (some 5)) 2
      = calcular_crecimiento [some 1, some 2, some 3] 2 :=
  C10_cagr_depends_on_two_points [some 1, some 2, some 3] 2 0 1 5
    (by decide) (by decide) (by decide) (by decide) (by decide)

/-- C9: the trailing mean ratio is absent exactly when the series holds no
non-absent value (never zero in that case), and any produced mean is the
arithmetic mean of the suffix of non-absent values of length
`min window len`: the last `window` of them, or all of them when fewer
than `window` exist. -/
theorem C9_trailing_mean_ratio (per : List (Option ℚ)) (w : ℕ) (hw : 1 ≤ w) :
    (per_promedio per w = none ↔ ∀ x ∈ per, x = none) ∧
    (∀ m, per_promedio per w = some m →
      ∃ pre t, per.filterMap id = pre ++ t ∧
        t.length = min w (per.filterMap id).length ∧ t ≠ [] ∧
        m = t.sum / (t.length : ℚ)) := by
  have hdef : per_promedio per w =
      if (per.filterMap id).drop ((per.filterMap id).length - w) = [] then none
      else some (((per.filterMap id).drop ((per.filterMap id).length - w)).sum /
        ((((per.filterMap id).drop ((per.filterMap id).length - w)).length : ℚ))) := rfl
  have hteq : (per.filterMap id).drop ((per.filterMap id).length - w) = [] ↔
      per.filterMap id = [] := by
    rw [List.drop_eq_nil_iff]
    constructor
    · intro h
      rw [← List.length_eq_zero]
      omega
    · intro h
      rw [h]
      simp
  constructor
  · rw [hdef]
    by_cases ht : (per.filterMap id).drop ((per.filterMap id).length - w) = []
    · rw [if_pos ht]
      refine iff_of_true rfl ?_
      intro x hx
      have := List.filterMap_eq_nil_iff.mp (hteq.mp ht) x hx
      simpa using this
    · rw [if_neg ht]
      refine iff_of_false (by simp) ?_
      intro h
      exact ht (hteq.mpr (List.filterMap_eq_nil_iff.mpr (fun a ha => by simp [h a ha])))
  · intro m hm
    have ht : ¬ ((per.filterMap id).drop ((per.filterMap id).length - w) = []) := by
      intro h
      rw [hdef, if_pos h] at hm
      exact Option.noConfusion hm
    rw [hdef, if_neg ht] at hm
    refine ⟨(per.filterMap id).take ((per.filterMap id).length - w),
      (per.filterMap id).drop ((per.filterMap id).length - w),
      (List.take_append_drop _ _).symm, ?_, ht, (Option.some_inj.mp hm).symm⟩
    rw [List.length_drop]
    omega

/-- Witness for C9: series 2, absent, 4 with window 5 averages the two
present values to 3. -/
theorem C9_trailing_mean_ratio_witness :
    ∃ pre t, ([some 2, none, some 4] : List (Option ℚ)).filterMap id = pre ++ t ∧
      t.length = min 5 (([some 2, none, some 4] : List (Option ℚ)).filterMap id).length ∧
      t ≠ [] ∧ (3 : ℚ) = t.sum / (t.length : ℚ) :=
  (C9_trailing_mean_ratio [some 2, none, some 4] 5 (by decide)).2 3
    (by simp [per_promedio]; norm_num)

theorem pairwise_rel_getLast {α : Type} {R : α → α → Prop} (hrefl : ∀ a, R a a) :
    ∀ (l : List α), l.Pairwise R → ∀ a, l.getLast? = some a → ∀ x ∈ l, R x a := by
  intro l
  induction l with
  | nil =>
    intro _ a ha
    simp at ha
  | cons b t ih =>
    intro hp a ha x hx
    cases t with
    | nil =>
      have hab : b = a := by simpa using ha
      have hxb : x = b := by simpa using hx
      rw [hxb, hab]
      exact hrefl a
    | cons c t2 =>
      rw [List.getLast?_cons_cons] at ha
      rcases List.mem_cons.mp hx with hxb | hxt
      · have hmem : a ∈ c :: t2 := List.mem_of_mem_getLast? ha
        exact hxb ▸ (List.pairwise_cons.mp hp).1 a hmem
      · exact ih (List.pairwise_cons.mp hp).2 a ha x hxt

/-- The backward as-of match is empty exactly when every price postdates
the lookup date. -/
theorem asofPrecio_eq_none_iff (prices : List (ℤ × ℚ)) (d : ℤ) :
    asofPrecio prices d = none ↔ ∀ p ∈ prices, ¬ p.1 ≤ d := by
  unfold asofPrecio
  rw [Option.map_eq_none', List.getLast?_eq_none_iff, List.filter_eq_nil_iff]
  simp

/-- Any matched price belongs to the table and is dated at or before the
lookup date. -/
theorem asofPrecio_mem (prices : List (ℤ × ℚ)) (d : ℤ) (q : ℚ)
    (h : asofPrecio prices d = some q) :
    ∃ p ∈ prices, p.1 ≤ d ∧ p.2 = q := by
  unfold asofPrecio at h
  rw [Option.map_eq_some'] at h
  obtain ⟨p, hpl, hpq⟩ := h
  obtain ⟨hpm, hpd⟩ := List.mem_filter.mp (List.mem_of_mem_getLast? hpl)
  exact ⟨p, hpm, by simpa using hpd, hpq⟩

/-- On an ascending price table the matched price carries the latest date
at most the lookup date. -/
theorem asofPrecio_latest (prices : List (ℤ × ℚ)) (d : ℤ)
    (hp : prices.Pairwise priceLe) (q : ℚ) (h : asofPrecio prices d = some q) :
    ∃ p ∈ prices, p.1 ≤ d ∧ p.2 = q ∧ ∀ x ∈ prices, x.1 ≤ d → x.1 ≤ p.1 := by
  unfold asofPrecio at h
  rw [Option.map_eq_some'] at h
  obtain ⟨p, hpl, hpq⟩ := h
  obtain ⟨hpm, hpd⟩ := List.mem_filter.mp (List.mem_of_mem_getLast? hpl)
  refine ⟨p, hpm, by simpa using hpd, hpq, ?_⟩
  intro x hx hxd
  have hxf : x ∈ prices.filter (fun p => decide (p.1 ≤ d)) :=
    List.mem_filter.mpr ⟨hx, by simpa using hxd⟩
  exact pairwise_rel_getLast (R := priceLe) (fun a => le_refl a.1) _
    (hp.filter _) p hpl x hxf

/-- On already-ascending inputs the sorts of lines 63-64 are the identity
and the join is a plain row map. -/
theorem fusionar_eq_map (eps_df : List AnnualRow) (prices_df : List (ℤ × ℚ))
    (heps : eps_df.Pairwise annualFechaLe) (hpr : prices_df.Pairwise priceLe) :
    calcular_per_y_fusionar eps_df prices_df = eps_df.map (fun e =>
      ⟨e.fy, e.fecha, e.eps, asofPrecio prices_df e.fecha,
        if e.eps > 0 then (asofPrecio prices_df e.fecha).map (fun p => p / e.eps)
        else none⟩) := by
  unfold calcular_per_y_fusionar
  rw [List.Sorted.insertionSort_eq heps, List.Sorted.insertionSort_eq hpr]

/-- C3: for ascending annual records and ascending prices, the join keeps
the annual rows in order (same fiscal year, period end and EPS, one output
row each) and prices each row with the PricePoint of the latest date at
most the row's period end; a row that predates all price history gets an
absent price and an absent ratio. -/
theorem C3_backward_asof_join (eps_df : List AnnualRow) (prices_df : List (ℤ × ℚ))
    (heps : eps_df.Pairwise annualFechaLe) (hpr : prices_df.Pairwise priceLe) :
    (calcular_per_y_fusionar eps_df prices_df).map (fun r => (r.fy, r.fecha, r.eps))
      = eps_df.map (fun e => (e.fy, e.fecha, e.eps)) ∧
    ∀ r ∈ calcular_per_y_fusionar eps_df prices_df,
      ((∀ p ∈ prices_df, ¬ p.1 ≤ r.fecha) → r.precio = none ∧ r.per = none) ∧
      ((∃ p ∈ prices_df, p.1 ≤ r.fecha) → ∃ q, r.precio = some q) ∧
      (∀ q, r.precio = some q → ∃ p ∈ prices_df, p.1 ≤ r.fecha ∧ p.2 = q ∧
        ∀ x ∈ prices_df, x.1 ≤ r.fecha → x.1 ≤ p.1) := by
  rw [fusionar_eq_map eps_df prices_df heps hpr]
  constructor
  · rw [List.map_map]
    rfl
  · intro r hr
    obtain ⟨e, he, rfl⟩ := List.mem_map.mp hr
    refine ⟨?_, ?_, ?_⟩
    · intro hnone
      have h0 : asofPrecio prices_df e.fecha = none :=
        (asofPrecio_eq_none_iff _ _).mpr hnone
      constructor
      · exact h0
      · show (if e.eps > 0 then (asofPrecio prices_df e.fecha).map (fun p => p / e.eps)
          else none) = none
        rw [h0]
        by_cases hq : e.eps > 0
        · rw [if_pos hq]
          rfl
        · rw [if_neg hq]
    · intro hex
      rcases hq : asofPrecio prices_df e.fecha with _ | q
      · obtain ⟨p, hp1, hp2⟩ := hex
        exact absurd hp2 ((asofPrecio_eq_none_iff _ _).mp hq p hp1)
      · exact ⟨q, rfl⟩
    · intro q hq
      exact asofPrecio_latest prices_df e.fecha hpr q hq

/-- Witness for C3 on the spec's example: prices on days 100 and 200, one
fiscal row ending day 150. -/
theorem C3_backward_asof_join_witness :
    (calcular_per_y_fusionar [⟨2023, 150, 2⟩] [(100, 10), (200, 11)]).map
        (fun r => (r.fy, r.fecha, r.eps))
      = ([⟨2023, 150, 2⟩] : List AnnualRow).map (fun e => (e.fy, e.fecha, e.eps)) ∧
    ∀ r ∈ calcular_per_y_fusionar [⟨2023, 150, 2⟩] [(100, 10), (200, 11)],
      ∀ q, r.precio = some q →
        ∃ p ∈ [((100 : ℤ), (10 : ℚ)), (200, 11)], p.1 ≤ r.fecha ∧ p.2 = q ∧
          ∀ x ∈ [((100 : ℤ), (10 : ℚ)), (200, 11)], x.1 ≤ r.fecha → x.1 ≤ p.1 := by
  have h := C3_backward_asof_join [⟨2023, 150, 2⟩] [(100, 10), (200, 11)]
    (by decide) (by decide)
  exact ⟨h.1, fun r hr => (h.2 r hr).2.2⟩

/-- C4: a joined row that carries a ratio has positive EPS and a matched
(positive, hence the ratio strictly positive — never zero, never negative)
price, and the ratio is exactly price / EPS.  In this exact-arithmetic
embedding every rational is finite, so the infinity normalization of
line 69 holds vacuously. -/
theorem C4_ratio_present_invariant (eps_df : List AnnualRow)
    (prices_df : List (ℤ × ℚ)) (hpos : ∀ p ∈ prices_df, 0 < p.2) :
    ∀ r ∈ calcular_per_y_fusionar eps_df prices_df, ∀ q, r.per = some q →
      0 < r.eps ∧ (∃ p, r.precio = some p ∧ 0 < p ∧ q = p / r.eps) ∧ 0 < q := by
  intro r hr q hq
  unfold calcular_per_y_fusionar at hr
  obtain ⟨e, he, rfl⟩ := List.mem_map.mp hr
  simp only at hq ⊢
  by_cases heps : e.eps > 0
  · rw [if_pos heps, Option.map_eq_some'] at hq
    obtain ⟨p, hp1, hp2⟩ := hq
    obtain ⟨pp, hpp1, _, hpp3⟩ :=
      asofPrecio_mem (List.insertionSort priceLe prices_df) e.fecha p hp1
    have hppm : pp ∈ prices_df := (List.perm_insertionSort priceLe prices_df).subset hpp1
    have hp0 : 0 < p := hpp3 ▸ hpos pp hppm
    refine ⟨heps, ⟨p, hp1, hp0, hp2.symm⟩, ?_⟩
    rw [← hp2]
    exact div_pos hp0 heps
  · rw [if_neg heps] at hq
    exact Option.noConfusion hq

/-- Witness for C4: one fiscal row (EPS 2, period end 150) against one
price (day 100, close 10) gives the ratio 10/2. -/
theorem C4_ratio_present_invariant_witness :
    0 < (⟨2023, 150, 2, some 10, some (10 / 2)⟩ : ValuationRow).eps ∧
      (∃ p, (⟨2023, 150, 2, some 10, some (10 / 2)⟩ : ValuationRow).precio = some p ∧
        0 < p ∧ (10 / 2 : ℚ) =
          p / (⟨2023, 150, 2, some 10, some (10 / 2)⟩ : ValuationRow).eps) ∧
      (0 : ℚ) < 10 / 2 :=
  C4_ratio_present_invariant [⟨2023, 150, 2⟩] [(100, 10)] (by decide)
    ⟨2023, 150, 2, some 10, some (10 / 2)⟩ (by exact List.mem_singleton.mpr rfl)
    (10 / 2) rfl

/-- C5: for every input and every horizon `k` in 1..5, row `k` of the
projection carries `projected_eps = current_eps * (1 + growth/100) ^ k`
and the scenario prices `projected_eps * base_ratio * 0.8`,
`projected_eps * base_ratio` and `projected_eps * base_ratio * 1.2`; in
particular, at the spec's example (EPS 10, growth 10 %, ratio 15) the
first row is (11, 132, 165, 198). -/
theorem C5_projection_rows (e p g : ℚ) (k : ℕ) (h1 : 1 ≤ k) (h2 : k ≤ 5) :
    (proyeccion_df e p g)[k - 1]? = some
      ⟨k, e * (1 + g / 100) ^ k,
        e * (1 + g / 100) ^ k * p * (8 / 10),
        e * (1 + g / 100) ^ k * p,
        e * (1 + g / 100) ^ k * p * (12 / 10)⟩ ∧
    (proyeccion_df 10 15 10)[0]? = some ⟨1, 11, 132, 165, 198⟩ := by
  constructor
  · rw [proyeccion_df, List.getElem?_map, List.getElem?_range (by omega : k - 1 < 5)]
    simp only [Option.map_some']
    rw [show k - 1 + 1 = k from by omega]
    simp only [Option.some_inj, ProyeccionRow.mk.injEq]
    exact ⟨trivial, trivial, by ring, trivial, by ring⟩
  · rw [proyeccion_df, List.getElem?_map,
      List.getElem?_range (by omega : 0 < 5)]
    simp only [Option.map_some', Option.some_inj, ProyeccionRow.mk.injEq]
    norm_num

/-- Witness for C5 at horizon 2 with EPS 1, ratio 1, growth 0. -/
theorem C5_projection_rows_witness :
    (proyeccion_df 1 1 0)[2 - 1]? = some
      ⟨2, 1 * (1 + 0 / 100) ^ 2,
        1 * (1 + 0 / 100) ^ 2 * 1 * (8 / 10),
        1 * (1 + 0 / 100) ^ 2 * 1,
        1 * (1 + 0 / 100) ^ 2 * 1 * (12 / 10)⟩ ∧
    (proyeccion_df 10 15 10)[0]? = some ⟨1, 11, 132, 165, 198⟩ :=
  C5_projection_rows 1 1 0 2 (by decide) (by decide)

/-- C7 counterexample: with `current_eps = 0` every projected price is 0,
so the band quotients degenerate (0/0) and equal neither 1.25 nor 1.2. -/
theorem C7_band_ratio_refuted :
    ∃ r ∈ proyeccion_df 0 15 10, r.base / r.pesimista ≠ 5 / 4 ∧
      r.optimista / r.base ≠ 6 / 5 := by
  refine ⟨⟨1, 0 * (1 + 10 / 100) ^ 1, 0 * (1 + 10 / 100) ^ 1 * (15 * (8 / 10)),
    0 * (1 + 10 / 100) ^ 1 * 15, 0 * (1 + 10 / 100) ^ 1 * (15 * (12 / 10))⟩,
    ?_, ?_, ?_⟩
  · rw [proyeccion_df]
    exact List.mem_map.mpr ⟨0, by simp, rfl⟩
  · norm_num
  · norm_num

/-- C7 (amended): under the projector's stated preconditions — positive
base ratio, growth rate within [-50, 100] — and a nonzero current EPS,
every projection row satisfies `base / pessimistic = 5/4` and
`optimistic / base = 6/5` exactly (no floating-point tolerance is needed in
exact arithmetic).  The nonzero-EPS hypothesis is forced by the
counterexample. -/
theorem C7_band_ratios (e p g : ℚ) (he : e ≠ 0) (hp : 0 < p)
    (hg1 : -50 ≤ g) (hg2 : g ≤ 100) :
    ∀ r ∈ proyeccion_df e p g,
      r.base / r.pesimista = 5 / 4 ∧ r.optimista / r.base = 6 / 5 := by
  intro r hr
  rw [proyeccion_df] at hr
  obtain ⟨i, hi, rfl⟩ := List.mem_map.mp hr
  have hgrow : (0 : ℚ) < 1 + g / 100 := by linarith
  have hpe : e * (1 + g / 100) ^ (i + 1) ≠ 0 :=
    mul_ne_zero he (pow_ne_zero _ (ne_of_gt hgrow))
  have hpne : p ≠ 0 := ne_of_gt hp
  constructor
  · show e * (1 + g / 100) ^ (i + 1) * p /
        (e * (1 + g / 100) ^ (i + 1) * (p * (8 / 10))) = 5 / 4
    rw [div_eq_div_iff (mul_ne_zero hpe (mul_ne_zero hpne (by norm_num)))
      (by norm_num : (4 : ℚ) ≠ 0)]
    ring
  · show e * (1 + g / 100) ^ (i + 1) * (p * (12 / 10)) /
        (e * (1 + g / 100) ^ (i + 1) * p) = 6 / 5
    rw [div_eq_div_iff (mul_ne_zero hpe hpne) (by norm_num : (5 : ℚ) ≠ 0)]
    ring

/-- Witness for C7 (amended): the first projection row at EPS 10,
ratio 15, growth 10 %. -/
theorem C7_band_ratios_witness :
    (⟨0 + 1, 10 * (1 + 10 / 100) ^ (0 + 1),
        10 * (1 + 10 / 100) ^ (0 + 1) * (15 * (8 / 10)),
        10 * (1 + 10 / 100) ^ (0 + 1) * 15,
        10 * (1 + 10 / 100) ^ (0 + 1) * (15 * (12 / 10))⟩ : ProyeccionRow).base /
      (⟨0 + 1, 10 * (1 + 10 / 100) ^ (0 + 1),
        10 * (1 + 10 / 100) ^ (0 + 1) * (15 * (8 / 10)),
        10 * (1 + 10 / 100) ^ (0 + 1) * 15,
        10 * (1 + 10 / 100) ^ (0 + 1) * (15 * (12 / 10))⟩ : ProyeccionRow).pesimista
      = 5 / 4 ∧
    (⟨0 + 1, 10 * (1 + 10 / 100) ^ (0 + 1),
        10 * (1 + 10 / 100) ^ (0 + 1) * (15 * (8 / 10)),
        10 * (1 + 10 / 100) ^ (0 + 1) * 15,
        10 * (1 + 10 / 100) ^ (0 + 1) * (15 * (12 / 10))⟩ : ProyeccionRow).optimista /
      (⟨0 + 1, 10 * (1 + 10 / 100) ^ (0 + 1),
        10 * (1 + 10 / 100) ^ (0 + 1) * (15 * (8 / 10)),
        10 * (1 + 10 / 100) ^ (0 + 1) * 15,
        10 * (1 + 10 / 100) ^ (0 + 1) * (15 * (12 / 10))⟩ : ProyeccionRow).base
      = 6 / 5 :=
  C7_band_ratios 10 15 10 (by norm_num) (by norm_num) (by norm_num) (by norm_num)
    ⟨0 + 1, 10 * (1 + 10 / 100) ^ (0 + 1),
      10 * (1 + 10 / 100) ^ (0 + 1) * (15 * (8 / 10)),
      10 * (1 + 10 / 100) ^ (0 + 1) * 15,
      10 * (1 + 10 / 100) ^ (0 + 1) * (15 * (12 / 10))⟩
    (by exact List.mem_map.mpr ⟨0, List.mem_range.mpr (by decide), rfl⟩)

/-- C6 counterexample: on `cexHist` — two rows in descending date order
whose first row has a missing close — the adapter returns both rows
unchanged: the missing-price row is not dropped and the output is not
ascending by date. -/
theorem C6_missing_price_not_dropped :
    obtener_datos_yfinance cexHist = some cexHistOut ∧
      (∃ row ∈ cexHistOut, row.2 = none) ∧
      ¬ cexHistOut.Pairwise (fun a b => a.1.day ≤ b.1.day) := by
  decide

/-- C6 (amended): the adapter answers the `None` sentinel exactly on an
empty source (a signal distinct from an empty sequence; the function is
total, so no exception); otherwise it keeps every row in source order —
rows with a missing price included — and strips the timezone from every
date.  It does not drop missing prices and does not itself sort; the
output is ascending only when the source is. -/
theorem C6_adapter_passthrough (hist : List RawPriceRow) :
    (obtener_datos_yfinance hist = none ↔ hist = []) ∧
    (∀ l, obtener_datos_yfinance hist = some l →
      l.map (fun row => (row.1.day, row.2)) =
        hist.map (fun r => (r.fecha.day, r.close)) ∧
      ∀ row ∈ l, row.1.tz = none) := by
  unfold obtener_datos_yfinance
  by_cases h : hist = []
  · rw [if_pos h]
    exact ⟨iff_of_true rfl h, fun l hl => Option.noConfusion hl⟩
  · rw [if_neg h]
    refine ⟨iff_of_false (by simp) h, ?_⟩
    intro l hl
    obtain rfl := Option.some_inj.mp hl
    constructor
    · rw [List.map_map]
      rfl
    · intro row hrow
      obtain ⟨r, hr, rfl⟩ := List.mem_map.mp hrow
      rfl

/-- Witness for C6 (amended) on a one-row history carrying a timezone. -/
theorem C6_adapter_passthrough_witness :
    (obtener_datos_yfinance [⟨⟨1, some 60⟩, some 2⟩] = none ↔
      ([⟨⟨1, some 60⟩, some 2⟩] : List RawPriceRow) = []) ∧
    (([(⟨1, none⟩, some 2)] : List (RawDate × Option ℚ)).map
        (fun row => (row.1.day, row.2)) =
      ([⟨⟨1, some 60⟩, some 2⟩] : List RawPriceRow).map
        (fun r => (r.fecha.day, r.close)) ∧
      ∀ row ∈ ([(⟨1, none⟩, some 2)] : List (RawDate × Option ℚ)),
        row.1.tz = none) :=
  ⟨(C6_adapter_passthrough _).1, (C6_adapter_passthrough _).2 _ (by decide)⟩
